import Mathlib

/-!
Verification of the stage/pipeline execution engine of `build_loop.pipeline`
(`completion.py`, `stage.py`, `executor.py`, `loader.py`) against its
natural-language specification.

The Python modules are shallowly embedded as executable Lean definitions:

* strings are `String` / `List Char`; the regex scans of `completion.py`
  (`[[PROMISE:(.*?)]]` and the fenced ```json block pattern) are implemented
  as explicit left-to-right scanners with the same leftmost / non-greedy /
  backtracking semantics as Python `re`;
* JSON data is the inductive `JValue`; the external `json.loads` call is
  modelled as an abstract `parse : String → Option JValue` parameter
  (floating-point numbers are not modelled; no claim depends on them);
* Python dicts are association lists, with `dict.update` / `d[k] = v`
  modelled by `pyUpdate` / `pySet` keeping Python's ordering semantics;
* the external agent runner (`AgentRunner.run_iteration`) is an abstract
  function from the number of prior invocations (within one `Stage.run`),
  the prompt and the stage's denied-tools list to either an error text
  (a raised invocation-layer exception) or `(exit_code, output)`;
* unbounded `while` loops are given an explicit fuel parameter so that all
  definitions are structurally recursive and kernel-computable; callers in
  the theorems either supply provably sufficient fuel or state one-step
  facts that hold for any positive fuel;
* observable side effects with no bearing on the claims (printing, logging,
  the `BuildStats` usage counter, the per-iteration `on_iteration` event
  callback) are omitted.
-/

namespace BuildLoop

/-- JSON-like values as produced by `json.loads` in `completion.py`
(floating-point numbers are not modelled). -/
inductive JValue where
  | str (s : String)
  | num (n : Int)
  | bool (b : Bool)
  | null
  | arr (xs : List JValue)
  | obj (fields : List (String × JValue))

/-- Result from evaluating stage completion (`CompletionResult` in
`completion.py`).  `completion.py` can in principle store a non-string JSON
value in `signal` (an untyped Python corner); the model restricts `signal`
to `Option String` and no claim depends on that corner. -/
structure CompletionResult where
  is_complete : Bool
  signal : Option String := none
  artifacts : List (String × JValue) := []

/-- The whitespace characters of Python's `str.strip` / regex `\s`
(ASCII portion). -/
def pySpaceChars : List Char := [' ', '\t', '\n', '\r', '\x0b', '\x0c']

def isPySpace (c : Char) : Bool := pySpaceChars.contains c

/-- Python `str.strip()` on a character list. -/
def pyStripCh (l : List Char) : List Char :=
  ((l.dropWhile isPySpace).reverse.dropWhile isPySpace).reverse

/-- Index of the first occurrence of `pat` in `s` (Python `str.find` /
first regex match position), fuelled; `fuel ≥ s.length` suffices. -/
def findSubIdxF (pat : List Char) : Nat → List Char → Option Nat
  | _, [] => if pat.isEmpty then some 0 else none
  | 0, _ => none
  | fuel + 1, c :: rest =>
    if pat.isPrefixOf (c :: rest) then some 0
    else (findSubIdxF pat fuel rest).map (· + 1)

def findSubIdx (pat s : List Char) : Option Nat := findSubIdxF pat s.length s

/-- Scanner for Python's `re.findall(r"\[\[PROMISE:(.*?)\]\]", output, re.DOTALL)`:
at each position, a match needs the literal opener followed by a closing
`]]`; the lazy capture is the text up to the first `]]`; scanning resumes
after the match (leftmost, non-overlapping).  `fuel ≥ s.length` suffices. -/
def promiseOpen : List Char := "[[PROMISE:".data

def promiseClose : List Char := "]]".data

def findPromiseTagsF : Nat → List Char → List (List Char)
  | 0, _ => []
  | _, [] => []
  | fuel + 1, c :: rest =>
    if promiseOpen.isPrefixOf (c :: rest) then
      let t := (c :: rest).drop promiseOpen.length
      match findSubIdx promiseClose t with
      | some i => t.take i :: findPromiseTagsF fuel (t.drop (i + 2))
      | none => findPromiseTagsF fuel rest
    else findPromiseTagsF fuel rest

def findPromiseTags (s : List Char) : List (List Char) := findPromiseTagsF s.length s

/-- Detects completion via `[[PROMISE:SIGNAL]]` tags (`PromiseCompletion`
in `completion.py`; the `complete_signals or [...]` constructor default is
reflected in the field default). -/
structure PromiseCompletion where
  complete_signals : List String := ["TASK_COMPLETE", "BUILD_COMPLETE"]
  require_success : Bool := false

/-- The stripped promise-tag texts of an output, in order of appearance
(`matches = PROMISE_PATTERN.findall(output); signals = [m.strip() for m in matches]`). -/
def promiseSignals (output : String) : List String :=
  (findPromiseTags output.data).map fun tag => String.mk (pyStripCh tag)

/-- `PromiseCompletion.evaluate` from `completion.py`: the first signal (in
order of appearance) that is in `complete_signals` completes the stage,
subject to the `require_success` exit-code gate; otherwise the last tag
found (if any) is reported as a non-completing signal. -/
def PromiseCompletion.evaluate (self : PromiseCompletion) (output : String)
    (exit_code : Int) : CompletionResult :=
  let signals := promiseSignals output
  match signals.find? (fun s => self.complete_signals.contains s) with
  | some signal =>
    if self.require_success ∧ exit_code ≠ 0 then
      ⟨false, some signal, [("exit_code", JValue.num exit_code)]⟩
    else
      ⟨true, some signal, []⟩
  | none => ⟨false, signals.getLast?, []⟩

/-- Length of the leading run of whitespace characters. -/
def countSpaces : List Char → Nat
  | [] => 0
  | c :: rest => if isPySpace c then countSpaces rest + 1 else 0

/-- Opening literal of the fenced-block pattern
`re.compile(r"```json\s*\n(.*?)\n```", re.DOTALL)` in `completion.py`. -/
def jsonOpen : List Char := "```json".data

/-- Terminator `\n```' of the fenced-block pattern. -/
def jsonTerm : List Char := "\n```".data

/-- Backtracking choice of the `\s*\n` part of the fenced-block pattern:
given the candidate newline indices inside the leading whitespace run of
`t` in descending order (the greedy `\s*` tries the longest prefix first),
pick the first newline index `i` after which the lazy `(.*?)\n```' part can
still match, returning `i` together with the index of the first terminator
occurrence at or after `i + 1`. -/
def pickNewline (t : List Char) : List Nat → Option (Nat × Nat)
  | [] => none
  | i :: more =>
    match (findSubIdx jsonTerm (t.drop (i + 1))).map (· + (i + 1)) with
    | some j => some (i, j)
    | none => pickNewline t more

/-- One anchored match of the fenced-block pattern at the start of `s`:
returns the captured block body and the remainder of `s` after the
closing fence. -/
def matchJsonAt (s : List Char) : Option (List Char × List Char) :=
  if jsonOpen.isPrefixOf s then
    let t := s.drop jsonOpen.length
    let candidates :=
      ((List.range (countSpaces t)).filter fun i => t.getD i ' ' = '\n').reverse
    match pickNewline t candidates with
    | some (i, j) => some ((t.drop (i + 1)).take (j - (i + 1)), t.drop (j + jsonTerm.length))
    | none => none
  else none

/-- All captures of `JSON_BLOCK_PATTERN.finditer(output)`, leftmost and
non-overlapping.  `fuel ≥ s.length` suffices. -/
def jsonBlocksF : Nat → List Char → List (List Char)
  | 0, _ => []
  | _, [] => []
  | fuel + 1, c :: rest =>
    match matchJsonAt (c :: rest) with
    | some (cap, after) => cap :: jsonBlocksF fuel after
    | none => jsonBlocksF fuel rest

def jsonBlocks (s : List Char) : List (List Char) := jsonBlocksF s.length s

/-- Python `str.upper()` (ASCII portion, as used on JSON status signals). -/
def pyUpper (s : String) : String := String.mk (s.data.map Char.toUpper)

/-- Python `d[k] = v` on an association-list dict: overwrite in place if the
key exists, otherwise append. -/
def pySet (d : List (String × JValue)) (k : String) (v : JValue) :
    List (String × JValue) :=
  if (List.lookup k d).isSome then
    d.map fun kv => if kv.1 = k then (k, v) else kv
  else d ++ [(k, v)]

/-- Detects completion via fenced JSON blocks (`JsonCompletion` in
`completion.py`; constructor defaults reflected in the field defaults,
where `artifact_fields = none` is Python `None` meaning "extract all"). -/
structure JsonCompletion where
  complete_statuses : List String := ["COMPLETE", "APPROVED"]
  signal_field : String := "status"
  artifact_fields : Option (List String) := none
  require_success : Bool := false

/-- `JsonCompletion.evaluate` from `completion.py`.  The external
`json.loads` call is the abstract `parse` parameter: `none` models a raised
`json.JSONDecodeError`.  Note the Python truthiness test
`if self.artifact_fields:`, under which a configured empty list behaves
like `None` (extract all fields). -/
def JsonCompletion.evaluate (parse : String → Option JValue)
    (self : JsonCompletion) (output : String) (exit_code : Int) :
    CompletionResult :=
  match (jsonBlocks output.data).getLast? with
  | none => ⟨false, none, []⟩
  | some cap =>
    let json_str := String.mk (pyStripCh cap)
    match parse json_str with
    | none => ⟨false, none, []⟩
    | some data =>
      match data with
      | JValue.obj fields =>
        let signal : Option String :=
          match List.lookup self.signal_field fields with
          | some (JValue.str s) => some (pyUpper s)
          | _ => none
        let artifacts : List (String × JValue) :=
          match self.artifact_fields with
          | some fs =>
            if fs.isEmpty then fields
            else fs.filterMap fun k => (List.lookup k fields).map fun v => (k, v)
          | none => fields
        let is_complete : Bool :=
          match signal with
          | some s => self.complete_statuses.contains s
          | none => false
        if is_complete ∧ self.require_success ∧ exit_code ≠ 0 then
          ⟨false, signal, pySet artifacts "exit_code" (JValue.num exit_code)⟩
        else
          ⟨is_complete, signal, artifacts⟩
      | _ => ⟨false, none, []⟩

/-- A completion strategy, reduced to its single capability
`evaluate(output, exit_code)` (the `CompletionStrategy` interface). -/
def Strategy : Type := String → Int → CompletionResult

/-- Combines multiple completion strategies (`CompositeCompletion` in
`completion.py`). -/
structure CompositeCompletion where
  strategies : List Strategy

/-- The `for strategy in self.strategies` loop of
`CompositeCompletion.evaluate`: the first result with `is_complete=true`. -/
def compositeFirst (output : String) (exit_code : Int) :
    List Strategy → Option CompletionResult
  | [] => none
  | st :: rest =>
    let r := st output exit_code
    if r.is_complete then some r else compositeFirst output exit_code rest

/-- `CompositeCompletion.evaluate` from `completion.py`: first completing
strategy wins; otherwise the last strategy is evaluated again (pure
re-evaluation) and its result returned; an empty list yields the default
non-complete result. -/
def CompositeCompletion.evaluate (self : CompositeCompletion)
    (output : String) (exit_code : Int) : CompletionResult :=
  match compositeFirst output exit_code self.strategies with
  | some r => r
  | none =>
    match self.strategies.getLast? with
    | some last => last output exit_code
    | none => ⟨false, none, []⟩

/-- Python `repr` of a scalar JSON-like value; containers are abbreviated
(see `jstr`). -/
def jscalarRepr : JValue → String
  | JValue.str s => "'" ++ s ++ "'"
  | JValue.num n => toString n
  | JValue.bool true => "True"
  | JValue.bool false => "False"
  | JValue.null => "None"
  | JValue.arr _ => "[...]"
  | JValue.obj _ => "\x7b...\x7d"

/-- Python `str` of a context value, as applied by `str(value)` in
`Stage.build_prompt`.  Faithful on scalars — the only values any claim or
theorem exercises; container values are rendered only one level deep
(CPython `repr` recurses), an approximation nothing here depends on: the
produced prompt text only ever reaches the abstract agent runner. -/
def jstr : JValue → String
  | JValue.str s => s
  | JValue.arr xs =>
    "[" ++ String.intercalate ", " (xs.map jscalarRepr) ++ "]"
  | JValue.obj fields =>
    "\x7b" ++
      String.intercalate ", "
        (fields.map fun kv => "'" ++ kv.1 ++ "': " ++ jscalarRepr kv.2) ++
      "\x7d"
  | v => jscalarRepr v

/-- The literal placeholder `\x7bkey\x7d` built in `Stage.build_prompt`. -/
def placeholderOf (k : String) : List Char := '\x7b' :: (k.data ++ ['\x7d'])

/-- Python `str.replace(pat, rep)` — leftmost, non-overlapping, the
replacement text is not rescanned.  Fuelled; `fuel ≥ s.length` suffices
(for nonempty `pat` each step consumes at least one character). -/
def pyReplaceF (pat rep : List Char) : Nat → List Char → List Char
  | _, [] => []
  | 0, s => s
  | fuel + 1, c :: rest =>
    if pat.isPrefixOf (c :: rest) then
      rep ++ pyReplaceF pat rep fuel ((c :: rest).drop pat.length)
    else
      c :: pyReplaceF pat rep fuel rest

def pyReplace (s pat rep : List Char) : List Char := pyReplaceF pat rep s.length s

/-- `Stage.build_prompt` from `stage.py`: for each context item in order,
if the placeholder occurs in the current prompt, replace every occurrence
with the (already stringified) value.  The template-file loading of
`load_template` is external I/O; the model's `template` is the loaded
template string. -/
def Stage.build_prompt (template : String) (context : List (String × String)) :
    String :=
  context.foldl
    (fun prompt kv =>
      if (findSubIdx (placeholderOf kv.1) prompt.data).isSome then
        String.mk (pyReplace prompt.data (placeholderOf kv.1) kv.2.data)
      else prompt)
    template

/-- Configuration for a pipeline stage (`StageConfig` in `stage.py`),
with the completion strategy reduced to its `evaluate` capability. -/
structure StageConfig where
  name : String
  prompt_template : String
  completion : Strategy
  max_iterations : Nat := 10
  transitions : List (String × String) := []
  allowed_tools : Option (List String) := none
  denied_tools : Option (List String) := none

/-- The external agent-invocation collaborator
(`AgentRunner.run_iteration(prompt, stats, denied_tools)`), abstracted as a
function of the number of prior invocations within the current `Stage.run`
call, the prompt, and the stage's denied-tools list; `Except.error e`
models a raised invocation-layer exception with text `str(e)`, `Except.ok`
returns `(exit_code, output)` (the unused `stderr` and the `stats`
pass-through are omitted). -/
def Runner : Type :=
  Nat → String → Option (List String) → Except String (Int × String)

/-- The `while iterations < self.config.max_iterations` loop of
`Stage.run` in `stage.py`.  Arguments: remaining fuel
(`max_iterations - iterations`), the `iterations` counter, the number of
runner invocations made so far (each loop body performs exactly one), and
`last_result`.  Returns `(last_result, iterations, invocations)`. -/
def stageLoop (completion : Strategy) (runner : Runner) (prompt : String)
    (denied : Option (List String)) :
    Nat → Nat → Nat → CompletionResult → CompletionResult × Nat × Nat
  | 0, it, calls, last => (last, it, calls)
  | fuel + 1, it, calls, _ =>
    match runner calls prompt denied with
    | Except.error e => (⟨false, none, [("error", JValue.str e)]⟩, it + 1, calls + 1)
    | Except.ok (exit_code, output) =>
      let r := completion output exit_code
      if r.is_complete then (r, it + 1, calls + 1)
      else stageLoop completion runner prompt denied fuel (it + 1) (calls + 1) r

/-- `Stage.run` from `stage.py`, additionally reporting the number of
agent invocations (third component). -/
def Stage.runFull (cfg : StageConfig) (runner : Runner)
    (context : List (String × JValue)) : CompletionResult × Nat × Nat :=
  let prompt :=
    Stage.build_prompt cfg.prompt_template (context.map fun kv => (kv.1, jstr kv.2))
  stageLoop cfg.completion runner prompt cfg.denied_tools
    cfg.max_iterations 0 0 ⟨false, none, []⟩

/-- `Stage.run` from `stage.py`: returns
`(final CompletionResult, iterations consumed)`. -/
def Stage.run (cfg : StageConfig) (runner : Runner)
    (context : List (String × JValue)) : CompletionResult × Nat :=
  ((Stage.runFull cfg runner context).1, (Stage.runFull cfg runner context).2.1)

/-- `Stage.get_next_stage` from `stage.py`: `if not result.signal` is
Python truthiness, so both a null and an empty-string signal yield no
transition. -/
def Stage.get_next_stage (cfg : StageConfig) (result : CompletionResult) :
    Option String :=
  match result.signal with
  | none => none
  | some s => if s = "" then none else List.lookup s cfg.transitions

/-- Pipeline execution status (`PipelineStatus` in `executor.py`). -/
inductive PipelineStatus where
  | pending
  | running
  | completed
  | failed
  | stopped
deriving DecidableEq

/-- Current state of pipeline execution (`PipelineState` in `executor.py`),
with the dataclass field defaults. -/
structure PipelineState where
  current_stage : Option String := none
  global_artifacts : List (String × JValue) := []
  status : PipelineStatus := PipelineStatus.pending
  stage_history : List (String × Option String) := []
  total_iterations : Nat := 0

/-- Configuration for a complete pipeline (`PipelineConfig` in
`executor.py`): a plain dataclass — constructing it performs no
validation. -/
structure PipelineConfig where
  name : String
  stages : List (String × StageConfig)
  start_stage : String
  description : String := ""
  end_signals : List String := ["BUILD_COMPLETE", "COMPLETE"]

/-- Pipeline events (`executor.py`; the per-iteration
`StageIterationEvent` and the streaming `OutputEvent` are omitted, they
carry no information any claim mentions). -/
inductive PipelineEvent where
  | stageStarted (stage : String)
  | stageCompleted (stage : String) (signal : Option String) (iterations : Nat)
      (artifacts : List (String × JValue))
  | pipelineCompleted (status : PipelineStatus) (total_iterations : Nat)
      (final_signal : Option String)

/-- Trace entries of the calls `PipelineExecutor.run` makes to its
collaborators.  The hook constructors `beforeHook` / `afterHook` express
the spec's claimed `before_stage(stage_name, context)` /
`after_stage(stage_name, context, result)` protocol; the embedded `run`,
translated from `executor.py`, never emits them, because the source
accepts no such callbacks and calls none. -/
inductive ExecCall where
  | beforeHook (stage : String)
  | afterHook (stage : String)
  | emitEvent (e : PipelineEvent)
  | stageRun (stage : String)

/-- Python `dict.update` on association-list dicts: existing keys are
overwritten in place (keeping their position), new keys are appended in
update order. -/
def pyUpdate (base upd : List (String × JValue)) : List (String × JValue) :=
  (base.map fun kv =>
    match List.lookup kv.1 upd with
    | some v => (kv.1, v)
    | none => kv) ++
    upd.filter fun kv => (List.lookup kv.1 base).isNone

/-- The end-signal test `result.signal and result.signal in
self.config.end_signals` of `executor.py` — note the Python truthiness of
the first conjunct: an empty-string signal never passes. -/
def isEndSignal (cfg : PipelineConfig) (signal : Option String) : Bool :=
  match signal with
  | none => false
  | some s => s ≠ "" && cfg.end_signals.contains s

/-- The `while current_stage_name and not self._should_stop` loop of
`PipelineExecutor.run` (`executor.py`), with an explicit fuel bound on the
number of stage executions (the Python loop may run forever on cyclic
transitions; fuel exhaustion returns the still-`running` state).
`stop()` is never called in the modelled runs, so `_should_stop` stays
false; the `try/except` around `stage.run` is dead in the model because
the embedded `Stage.run` is total.  Alongside the state it returns the
trace of collaborator calls (events emitted, stages run, hooks — none). -/
def execLoop (cfg : PipelineConfig) (runner : Runner) :
    Nat → String → List (String × JValue) → PipelineState → List ExecCall →
    PipelineState × List ExecCall
  | 0, _, _, st, tr => (st, tr)
  | fuel + 1, current, context, st, tr =>
    match List.lookup current cfg.stages with
    | none => ({ st with status := PipelineStatus.failed }, tr)
    | some sc =>
      let st1 := { st with current_stage := some current }
      let tr1 := tr ++ [ExecCall.emitEvent (PipelineEvent.stageStarted current)]
      let result := (Stage.run sc runner context).1
      let iterations := (Stage.run sc runner context).2
      let st2 := { st1 with
        total_iterations := st1.total_iterations + iterations
        global_artifacts := pyUpdate st1.global_artifacts result.artifacts
        stage_history := st1.stage_history ++ [(current, result.signal)] }
      let tr2 := tr1 ++ [ExecCall.stageRun current,
        ExecCall.emitEvent
          (PipelineEvent.stageCompleted current result.signal iterations result.artifacts)]
      if isEndSignal cfg result.signal then
        let st3 := { st2 with status := PipelineStatus.completed }
        (st3, tr2 ++ [ExecCall.emitEvent
          (PipelineEvent.pipelineCompleted PipelineStatus.completed
            st3.total_iterations result.signal)])
      else
        match Stage.get_next_stage sc result with
        | some nx =>
          if nx = "" then
            -- `if next_stage_name:` is falsy for the empty string, so an
            -- empty-string transition target takes the no-transition branch
            if result.is_complete then
              ({ st2 with status := PipelineStatus.completed }, tr2)
            else
              ({ st2 with status := PipelineStatus.failed }, tr2)
          else execLoop cfg runner fuel nx (pyUpdate context result.artifacts) st2 tr2
        | none =>
          if result.is_complete then
            ({ st2 with status := PipelineStatus.completed }, tr2)
          else
            ({ st2 with status := PipelineStatus.failed }, tr2)

/-- The executor object (`PipelineExecutor` in `executor.py`).  Its
`__init__` signature is `(config, runner, on_event, context)` — there are
no `before_stage` / `after_stage` parameters or attributes in the source.
The event callback `on_event` is represented by the emitted trace.  The
`_stages` dict is built from `config.stages` with identical keys and
per-stage data, so stage lookup goes through `config.stages` directly. -/
structure PipelineExecutor where
  config : PipelineConfig
  runner : Runner
  initial_context : List (String × JValue)
  state : PipelineState
  should_stop : Bool

/-- `PipelineExecutor.__init__`: `self.initial_context = context or {}`,
`self._state = PipelineState()`, `self._should_stop = False`. -/
def mkExecutor (config : PipelineConfig) (runner : Runner)
    (context : Option (List (String × JValue))) : PipelineExecutor :=
  ⟨config, runner, context.getD [], {}, false⟩

/-- `PipelineExecutor.run` (`executor.py`): sets `status = RUNNING` on the
executor's (pre-existing) `_state`, builds the execution context as a copy
of the initial context, and enters the stage loop from `start_stage`
(skipped entirely when falsy, i.e. empty).  Returns the final state and
the trace of collaborator calls; the executor retains the returned state
(`self._state`), which a sequential second `run` continues from. -/
def PipelineExecutor.run (self : PipelineExecutor) (fuel : Nat) :
    PipelineState × List ExecCall :=
  let st := { self.state with status := PipelineStatus.running }
  if self.config.start_stage = "" then (st, [])
  else execLoop self.config self.runner fuel self.config.start_stage
    self.initial_context st []

/-- Schema for a single pipeline stage (`StageSchema` in `loader.py`;
only the fields `validate_stages` reads are modelled). -/
structure StageSchema where
  name : String
  prompt : String
  transitions : List (String × String) := []

/-- Schema for a complete pipeline definition (`PipelineSchema` in
`loader.py`). -/
structure PipelineSchema where
  name : String
  description : String := ""
  start_stage : String
  end_signals : List String := ["BUILD_COMPLETE", "COMPLETE"]
  stages : List StageSchema

/-- The first transition entry whose target is not a declared stage name,
searched in stage order then transition order (the iteration order of
`validate_stages`). -/
def firstBadTransition (stage_names : List String) (stages : List StageSchema) :
    Option (StageSchema × String × String) :=
  stages.findSome? fun st =>
    (st.transitions.find? fun kv => ! stage_names.contains kv.2).map
      fun kv => (st, kv.1, kv.2)

/-- `PipelineSchema.validate_stages` from `loader.py` — the pydantic
`model_validator(mode="after")` that runs when a `PipelineSchema` is
constructed (`load_pipeline` / `load_pipeline_from_dict`); `Except.error`
models the raised `ValueError`. -/
def PipelineSchema.validate_stages (self : PipelineSchema) :
    Except String PipelineSchema :=
  let stage_names := self.stages.map StageSchema.name
  if ¬ stage_names.contains self.start_stage then
    Except.error ("start_stage '" ++ self.start_stage ++ "' not found in stages")
  else
    match firstBadTransition stage_names self.stages with
    | some (st, signal, target) =>
      Except.error ("Stage '" ++ st.name ++ "' transition '" ++ signal ++
        "' -> '" ++ target ++ "': target stage not found")
    | none => Except.ok self

/-! ### Formalisation of the specification's reading of `build_prompt`

The specification describes `build_prompt` as a single substitution pass:
"every occurrence of `\x7bkey\x7d` where `key` is present in `context` is
replaced by the string form of that value; placeholders with no matching
context key are left untouched".  `specSubst` below formalises those words
(it is written from the spec sentence, not from the source, for comparison
with the source-derived `Stage.build_prompt`): one left-to-right pass over
the template, emitting each present key's value for its placeholder and
copying everything else — replacement text is never rescanned and no later
key is applied to an earlier key's value. -/

def specSubstF (context : List (String × String)) : Nat → List Char → List Char
  | 0, s => s
  | _, [] => []
  | fuel + 1, c :: rest =>
    match context.find? (fun kv => (placeholderOf kv.1).isPrefixOf (c :: rest)) with
    | some kv =>
      kv.2.data ++ specSubstF context fuel ((c :: rest).drop (placeholderOf kv.1).length)
    | none => c :: specSubstF context fuel rest

def specSubst (template : String) (context : List (String × String)) : String :=
  String.mk (specSubstF context template.data.length template.data)

/-! ### Well-formed templates as literal/placeholder token lists

Used to state the amended `build_prompt` claim: a template decomposed into
brace-free literal runs and `\x7bname\x7d` placeholders. -/

/-- A template token: a literal text run or a `\x7bname\x7d` placeholder. -/
inductive TplToken where
  | lit (s : String)
  | hole (k : String)

/-- The character rendering of a token. -/
def TplToken.render : TplToken → List Char
  | TplToken.lit s => s.data
  | TplToken.hole k => placeholderOf k

/-- The character rendering of a token-list template. -/
def renderTpl (ts : List TplToken) : List Char := (ts.map TplToken.render).flatten

/-- A character list without braces. -/
def braceFree (l : List Char) : Prop := '\x7b' ∉ l ∧ '\x7d' ∉ l

/-- Well-formedness of a token: its payload is brace-free. -/
def TplToken.wf : TplToken → Prop
  | TplToken.lit s => braceFree s.data
  | TplToken.hole k => braceFree k.data

instance : DecidablePred braceFree := fun l =>
  inferInstanceAs (Decidable ('\x7b' ∉ l ∧ '\x7d' ∉ l))

instance : DecidablePred TplToken.wf := fun t => by
  cases t <;> exact inferInstanceAs (Decidable (braceFree _))

/-- Resolution of one context key: holes named `k` become the literal
value `v`. -/
def TplToken.resolveOne (k v : String) : TplToken → TplToken
  | TplToken.lit s => TplToken.lit s
  | TplToken.hole n => if n = k then TplToken.lit v else TplToken.hole n

/-- Resolution of a whole context: holes with a context key become their
(first) value, holes without one survive. -/
def TplToken.resolve (context : List (String × String)) : TplToken → TplToken
  | TplToken.lit s => TplToken.lit s
  | TplToken.hole k =>
    match List.lookup k context with
    | some v => TplToken.lit v
    | none => TplToken.hole k

/-! ### Concrete pipelines, stages and inputs used by the witness and
counterexample theorems -/

/-- An agent runner that always succeeds with exit code 0 and empty
output. -/
def runnerOk : Runner := fun _ _ _ => Except.ok (0, "")

/-- A stage whose completion strategy always completes with signal
`DONE` and that also declares a transition for `DONE` (the spec's
end-signal-precedence scenario). -/
def stageDone : StageConfig :=
  { name := "A", prompt_template := "p",
    completion := fun _ _ => ⟨true, some "DONE", []⟩,
    max_iterations := 1, transitions := [("DONE", "B")] }

/-- A second stage that the `DONE` transition of `stageDone` targets. -/
def stageB : StageConfig :=
  { name := "B", prompt_template := "q",
    completion := fun _ _ => ⟨true, some "OTHER", []⟩,
    max_iterations := 1 }

/-- Pipeline for the end-signal-precedence scenario: `end_signals`
contains `DONE` and stage `A` also maps `DONE` to `B`. -/
def pipeDone : PipelineConfig :=
  { name := "t", stages := [("A", stageDone), ("B", stageB)],
    start_stage := "A", end_signals := ["DONE"] }

/-- A stage whose result carries the empty-string signal without
completing (as `PromiseCompletion` produces for a trailing `[[PROMISE:]]`
tag outside the complete set). -/
def stageEmptySig : StageConfig :=
  { name := "A", prompt_template := "p",
    completion := fun _ _ => ⟨false, some "", []⟩, max_iterations := 1 }

/-- Pipeline whose `end_signals` contains the empty string. -/
def pipeEmptyEnd : PipelineConfig :=
  { name := "t", stages := [("A", stageEmptySig)],
    start_stage := "A", end_signals := [""] }

/-- A pipeline whose `start_stage` names no declared stage — its
construction (a plain dataclass) succeeds without validation. -/
def pipeBadStart : PipelineConfig :=
  { name := "t", stages := [("A", stageDone)],
    start_stage := "missing", end_signals := [] }

/-- Output with a single fenced JSON block whose object has a `status`
field and one other field. -/
def jsonOutEx : String :=
  "```json\n\x7b\"status\": \"COMPLETE\", \"x\": \"1\"\x7d\n```"

/-- The `json.loads` result on the block of `jsonOutEx` (and parse
failure elsewhere), standing in for the external JSON parser. -/
def jsonParseEx : String → Option JValue := fun s =>
  if s = "\x7b\"status\": \"COMPLETE\", \"x\": \"1\"\x7d" then
    some (JValue.obj [("status", JValue.str "COMPLETE"), ("x", JValue.str "1")])
  else none

/-- Hook-call trace entries (the calls the spec's §4.4 protocol would
produce). -/
def isHookCall : ExecCall → Prop
  | ExecCall.beforeHook _ => True
  | ExecCall.afterHook _ => True
  | _ => False

/-! ## Theorems -/

/-- C2 (corrected): `PromiseCompletion.evaluate` completes with the FIRST
tag, in order of appearance, whose stripped text is in the complete-signal
set — not the last — when the `require_success` gate does not apply
(`require_success` false or `exit_code = 0`). -/
theorem promise_completes_with_first_matching_signal
    (self : PromiseCompletion) (output : String) (exit_code : Int) (sig : String)
    (h1 : (promiseSignals output).find?
      (fun s => self.complete_signals.contains s) = some sig)
    (h2 : self.require_success = false ∨ exit_code = 0) :
    self.evaluate output exit_code = ⟨true, some sig, []⟩ := by
  simp only [PromiseCompletion.evaluate, h1]
  rcases h2 with h | h <;> simp [h]

/-- Witness for `promise_completes_with_first_matching_signal` at a
concrete output containing two matching tags: the first (`A`) wins. -/
theorem promise_completes_with_first_matching_signal_w :
    PromiseCompletion.evaluate ⟨["A", "B"], false⟩
      "[[PROMISE:A]] [[PROMISE:B]]" 0 = ⟨true, some "A", []⟩ :=
  promise_completes_with_first_matching_signal ⟨["A", "B"], false⟩
    "[[PROMISE:A]] [[PROMISE:B]]" 0 "A" rfl (Or.inl rfl)

/-- C2, counterexample to the claim as stated: with output
`[[PROMISE:A]] [[PROMISE:B]]` and both `A` and `B` in the complete-signal
set, the last matching tag is `B`, yet `evaluate` returns signal `A`. -/
theorem promise_last_matching_signal_cex :
    PromiseCompletion.evaluate ⟨["A", "B"], false⟩
      "[[PROMISE:A]] [[PROMISE:B]]" 0 = ⟨true, some "A", []⟩ ∧
    ((promiseSignals "[[PROMISE:A]] [[PROMISE:B]]").filter
      (fun s => List.contains ["A", "B"] s)).getLast? = some "B" ∧
    (some "A" : Option String) ≠ some "B" :=
  ⟨rfl, rfl, by decide⟩

/-- C3 (amended): when the last fenced JSON block parses to an object and
the `require_success` gate is off, the artifacts of
`JsonCompletion.evaluate` are ALL fields of the object — including the
signal field — when `artifact_fields` is unset, and exactly the present
named fields when a non-empty `artifact_fields` list is configured. -/
theorem json_artifacts_characterization
    (parse : String → Option JValue) (self : JsonCompletion) (output : String)
    (exit_code : Int) (cap : List Char) (fields : List (String × JValue))
    (h1 : (jsonBlocks output.data).getLast? = some cap)
    (h2 : parse (String.mk (pyStripCh cap)) = some (JValue.obj fields))
    (h3 : self.require_success = false) :
    (self.artifact_fields = none →
      (JsonCompletion.evaluate parse self output exit_code).artifacts = fields) ∧
    (∀ fs, self.artifact_fields = some fs → fs ≠ [] →
      (JsonCompletion.evaluate parse self output exit_code).artifacts =
        fs.filterMap fun k => (List.lookup k fields).map fun v => (k, v)) := by
  constructor
  · intro ha
    simp [JsonCompletion.evaluate, h1, h2, ha, h3]
  · intro fs ha hne
    simp [JsonCompletion.evaluate, h1, h2, ha, h3, hne]

/-- Witness for `json_artifacts_characterization`: on `jsonOutEx`, the
default configuration extracts both fields (the signal field included) and
an `artifact_fields := ["x"]` configuration extracts exactly `x`. -/
theorem json_artifacts_characterization_w :
    (JsonCompletion.evaluate jsonParseEx {} jsonOutEx 0).artifacts =
      [("status", JValue.str "COMPLETE"), ("x", JValue.str "1")] ∧
    (JsonCompletion.evaluate jsonParseEx { artifact_fields := some ["x"] }
        jsonOutEx 0).artifacts = [("x", JValue.str "1")] :=
  ⟨(json_artifacts_characterization jsonParseEx {} jsonOutEx 0 _ _ rfl rfl rfl).1 rfl,
    (json_artifacts_characterization jsonParseEx { artifact_fields := some ["x"] }
      jsonOutEx 0 _ _ rfl rfl rfl).2 ["x"] rfl (by decide)⟩

/-- C3, counterexample to the claim as stated: with the default (no
`artifact_fields`) configuration, the signal field's entry IS returned as
an artifact. -/
theorem json_artifacts_default_cex :
    JsonCompletion.evaluate jsonParseEx {} jsonOutEx 0 =
      ⟨true, some "COMPLETE",
        [("status", JValue.str "COMPLETE"), ("x", JValue.str "1")]⟩ ∧
    List.lookup "status"
      (JsonCompletion.evaluate jsonParseEx {} jsonOutEx 0).artifacts =
      some (JValue.str "COMPLETE") :=
  ⟨rfl, rfl⟩

/-- `compositeFirst` returns the first completing strategy's result. -/
theorem compositeFirst_append (output : String) (exit_code : Int)
    (pre : List Strategy) (t : Strategy) (post : List Strategy)
    (hpre : ∀ u ∈ pre, (u output exit_code).is_complete = false)
    (ht : (t output exit_code).is_complete = true) :
    compositeFirst output exit_code (pre ++ t :: post) =
      some (t output exit_code) := by
  induction pre with
  | nil => simp [compositeFirst, ht]
  | cons u pre ih =>
    have hu := hpre u (List.mem_cons_self u pre)
    simp only [List.cons_append, compositeFirst, hu]
    exact ih fun v hv => hpre v (List.mem_cons_of_mem u hv)

/-- `compositeFirst` finds nothing when no strategy completes. -/
theorem compositeFirst_none (output : String) (exit_code : Int)
    (l : List Strategy)
    (h : ∀ t ∈ l, (t output exit_code).is_complete = false) :
    compositeFirst output exit_code l = none := by
  induction l with
  | nil => rfl
  | cons u l ih =>
    have hu := h u (List.mem_cons_self u l)
    simp only [compositeFirst, hu]
    exact ih fun v hv => h v (List.mem_cons_of_mem u hv)

/-- C8 (confirmed): `CompositeCompletion.evaluate` returns the first
strategy's result with `is_complete=true`; when none completes it returns
the LAST strategy's result; and the empty strategy list yields
`is_complete=false` with no signal. -/
theorem composite_evaluate_characterization
    (strats : List Strategy) (output : String) (exit_code : Int) :
    (∀ pre t post, strats = pre ++ t :: post →
      (∀ u ∈ pre, (u output exit_code).is_complete = false) →
      (t output exit_code).is_complete = true →
      CompositeCompletion.evaluate ⟨strats⟩ output exit_code =
        t output exit_code) ∧
    ((∀ t ∈ strats, (t output exit_code).is_complete = false) →
      ∀ t₀, strats.getLast? = some t₀ →
      CompositeCompletion.evaluate ⟨strats⟩ output exit_code =
        t₀ output exit_code) ∧
    CompositeCompletion.evaluate ⟨[]⟩ output exit_code = ⟨false, none, []⟩ := by
  refine ⟨?_, ?_, rfl⟩
  · intro pre t post hsplit hpre ht
    simp only [CompositeCompletion.evaluate, hsplit,
      compositeFirst_append output exit_code pre t post hpre ht]
  · intro hall t₀ hlast
    simp only [CompositeCompletion.evaluate,
      compositeFirst_none output exit_code strats hall, hlast]

/-- Witness for `composite_evaluate_characterization`: a completing second
strategy wins over a non-completing first; two non-completing strategies
yield the last one's result; the empty list yields the default. -/
theorem composite_evaluate_characterization_w :
    CompositeCompletion.evaluate
      ⟨[fun _ _ => ⟨false, some "a", []⟩, fun _ _ => ⟨true, some "b", []⟩]⟩
      "o" 0 = ⟨true, some "b", []⟩ ∧
    CompositeCompletion.evaluate
      ⟨[fun _ _ => ⟨false, some "a", []⟩, fun _ _ => ⟨false, some "c", []⟩]⟩
      "o" 0 = ⟨false, some "c", []⟩ ∧
    CompositeCompletion.evaluate ⟨[]⟩ "o" 0 = ⟨false, none, []⟩ := by
  refine ⟨?_, ?_, ?_⟩
  · exact (composite_evaluate_characterization _ "o" 0).1
      [fun _ _ => ⟨false, some "a", []⟩] (fun _ _ => ⟨true, some "b", []⟩) []
      rfl (by intro u hu; simp at hu; subst hu; rfl) rfl
  · exact (composite_evaluate_characterization _ "o" 0).2.1
      (by intro t ht; simp at ht; rcases ht with h | h <;> subst h <;> rfl)
      (fun _ _ => ⟨false, some "c", []⟩) rfl
  · exact (composite_evaluate_characterization [] "o" 0).2.2

/-- Each loop iteration of `Stage.run` invokes the agent exactly once, so
the invocation count is bounded by the starting count plus the remaining
fuel. -/
theorem stageLoop_calls_le (completion : Strategy) (runner : Runner)
    (prompt : String) (denied : Option (List String)) :
    ∀ fuel it calls last,
      (stageLoop completion runner prompt denied fuel it calls last).2.2 ≤
        calls + fuel := by
  intro fuel
  induction fuel with
  | zero => intro it calls last; simp [stageLoop]
  | succ n ih =>
    intro it calls last
    simp only [stageLoop]
    cases runner calls prompt denied with
    | error e => simp
    | ok v =>
      obtain ⟨ec, out⟩ := v
      by_cases hc : (completion out ec).is_complete
      · simp [hc]
      · simp only [hc]
        calc (stageLoop completion runner prompt denied n (it + 1) (calls + 1)
                (completion out ec)).2.2 ≤ (calls + 1) + n := ih _ _ _
          _ = calls + (n + 1) := by omega

/-- With an agent that always succeeds and a strategy that never
completes, the stage loop runs to fuel exhaustion, returning the last
evaluation. -/
theorem stageLoop_ok_never_complete (completion : Strategy) (prompt : String)
    (denied : Option (List String)) (ecf : Nat → Int) (outf : Nat → String)
    (h1 : ∀ out ec, (completion out ec).is_complete = false) :
    ∀ fuel it calls last,
      stageLoop completion (fun i _ _ => Except.ok (ecf i, outf i)) prompt denied
        (fuel + 1) it calls last =
        (completion (outf (calls + fuel)) (ecf (calls + fuel)),
          it + fuel + 1, calls + fuel + 1) := by
  intro fuel
  induction fuel with
  | zero =>
    intro it calls last
    simp [stageLoop, h1]
  | succ n ih =>
    intro it calls last
    conv_lhs => rw [show n + 1 + 1 = (n + 1) + 1 from rfl, stageLoop]
    simp only [h1, Bool.false_eq_true, if_false]
    rw [ih]
    refine congrArg₂ Prod.mk ?_ (congrArg₂ Prod.mk (by omega) (by omega))
    have : calls + 1 + n = calls + (n + 1) := by omega
    rw [this]

/-- C6 (confirmed): the agent-invocation collaborator is invoked at most
`max_iterations` times by `Stage.run` — unconditionally, for every
completion strategy (completing or not) and every runner; and with a
completion strategy that never reports completion and an agent that never
fails, it is invoked exactly `max_iterations` times and the stage returns
the last (non-complete) evaluation with
`iterations_used = max_iterations`. -/
theorem stage_run_respects_iteration_budget
    (nm tmpl : String) (completion : Strategy) (maxIter : Nat)
    (trans : List (String × String)) (denied : Option (List String))
    (ctx : List (String × JValue)) (runner : Runner)
    (ecf : Nat → Int) (outf : Nat → String) :
    (Stage.runFull ⟨nm, tmpl, completion, maxIter, trans, none, denied⟩
      runner ctx).2.2 ≤ maxIter ∧
    ((∀ out ec, (completion out ec).is_complete = false) →
      (maxIter = 0 →
        Stage.runFull ⟨nm, tmpl, completion, maxIter, trans, none, denied⟩
          (fun i _ _ => Except.ok (ecf i, outf i)) ctx =
          (⟨false, none, []⟩, 0, 0)) ∧
      (∀ m, maxIter = m + 1 →
        Stage.runFull ⟨nm, tmpl, completion, maxIter, trans, none, denied⟩
          (fun i _ _ => Except.ok (ecf i, outf i)) ctx =
          (completion (outf m) (ecf m), m + 1, m + 1)) ∧
      ((Stage.runFull ⟨nm, tmpl, completion, maxIter, trans, none, denied⟩
        (fun i _ _ => Except.ok (ecf i, outf i)) ctx).1).is_complete = false) := by
  refine ⟨?_, fun h1 => ⟨?_, ?_, ?_⟩⟩
  · simpa using stageLoop_calls_le completion runner _ denied maxIter 0 0 ⟨false, none, []⟩
  · intro h0; subst h0; rfl
  · intro m hm
    subst hm
    unfold Stage.runFull
    rw [stageLoop_ok_never_complete completion _ denied ecf outf h1 m 0 0
      ⟨false, none, []⟩]
    simp
  · cases maxIter with
    | zero => rfl
    | succ m =>
      unfold Stage.runFull
      rw [stageLoop_ok_never_complete completion _ denied ecf outf h1 m 0 0
        ⟨false, none, []⟩]
      exact h1 _ _

/-- Witness for `stage_run_respects_iteration_budget`: the unconditional
bound instantiated at an always-completing strategy, and the exact count
at `max_iterations = 3` with a never-completing strategy — the agent is
called exactly 3 times and the last non-complete result is returned with
3 iterations used. -/
theorem stage_run_respects_iteration_budget_w :
    (Stage.runFull ⟨"s", "p", fun _ _ => ⟨true, some "DONE", []⟩, 3, [], none, none⟩
      (fun _ _ _ => Except.ok (0, "out")) []).2.2 ≤ 3 ∧
    Stage.runFull ⟨"s", "p", fun _ _ => ⟨false, some "S", []⟩, 3, [], none, none⟩
      (fun i _ _ => Except.ok ((fun _ => (0 : Int)) i, (fun _ => "out") i)) [] =
      (⟨false, some "S", []⟩, 3, 3) := by
  constructor
  · exact (stage_run_respects_iteration_budget "s" "p"
      (fun _ _ => ⟨true, some "DONE", []⟩) 3 [] none []
      (fun _ _ _ => Except.ok (0, "out")) (fun _ => 0) (fun _ => "out")).1
  · exact ((stage_run_respects_iteration_budget "s" "p"
      (fun _ _ => ⟨false, some "S", []⟩) 3 [] none []
      (fun i _ _ => Except.ok ((fun _ => (0 : Int)) i, (fun _ => "out") i))
      (fun _ => 0) (fun _ => "out")).2 (fun _ _ => rfl)).2.1 2 rfl

/-- When every invocation before the `k`-th succeeds without completing
and the `k`-th raises, the stage loop stops at the `k`-th step with the
error artifact. -/
theorem stageLoop_error_at (completion : Strategy) (prompt : String)
    (denied : Option (List String)) (ecf : Nat → Int) (outf : Nat → String)
    (e : String) (k : Nat)
    (h1 : ∀ i, i < k - 1 → (completion (outf i) (ecf i)).is_complete = false)
    (h2 : 1 ≤ k) :
    ∀ fuel cnt last, cnt ≤ k - 1 → k ≤ cnt + fuel →
      stageLoop completion
        (fun i _ _ => if i = k - 1 then Except.error e else Except.ok (ecf i, outf i))
        prompt denied fuel cnt cnt last =
        (⟨false, none, [("error", JValue.str e)]⟩, k, k) := by
  intro fuel
  induction fuel with
  | zero => intro cnt last hle hk; omega
  | succ n ih =>
    intro cnt last hle hk
    by_cases hc : cnt = k - 1
    · subst hc
      have hk : k - 1 + 1 = k := by omega
      simp [stageLoop, hk]
    · have hlt : cnt < k - 1 := by omega
      simp only [stageLoop, if_neg hc, h1 cnt hlt, Bool.false_eq_true, if_false]
      exact ih (cnt + 1) (completion (outf cnt) (ecf cnt)) (by omega) (by omega)

/-- C7 (confirmed): if the agent invocation raises on iteration `k`,
`Stage.run` stops immediately — `k` invocations in total, no retries —
returning a non-complete result whose artifacts hold the error text under
the key `error`, with `iterations_used = k`, regardless of
`max_iterations`; no exception escapes (the embedded `Stage.run` is a
total function). -/
theorem stage_run_aborts_on_invocation_error
    (nm tmpl : String) (completion : Strategy) (maxIter : Nat)
    (trans : List (String × String)) (denied : Option (List String))
    (ctx : List (String × JValue)) (ecf : Nat → Int) (outf : Nat → String)
    (e : String) (k : Nat)
    (h1 : ∀ i, i < k - 1 → (completion (outf i) (ecf i)).is_complete = false)
    (h2 : 1 ≤ k) (h3 : k ≤ maxIter) :
    Stage.runFull ⟨nm, tmpl, completion, maxIter, trans, none, denied⟩
      (fun i _ _ => if i = k - 1 then Except.error e else Except.ok (ecf i, outf i))
      ctx = (⟨false, none, [("error", JValue.str e)]⟩, k, k) := by
  show stageLoop completion _ _ denied maxIter 0 0 ⟨false, none, []⟩ = _
  exact stageLoop_error_at completion _ denied ecf outf e k h1 h2 maxIter 0
    ⟨false, none, []⟩ (by omega) (by omega)

/-- Witness for `stage_run_aborts_on_invocation_error`: a first-call
"not found" failure with `max_iterations = 5` returns after exactly one
invocation with the error artifact. -/
theorem stage_run_aborts_on_invocation_error_w :
    Stage.runFull ⟨"s", "p", fun _ _ => ⟨false, none, []⟩, 5, [], none, none⟩
      (fun i _ _ => if i = 1 - 1 then Except.error "not found"
        else Except.ok ((fun _ => (0 : Int)) i, (fun _ => "") i))
      [] = (⟨false, none, [("error", JValue.str "not found")]⟩, 1, 1) :=
  stage_run_aborts_on_invocation_error "s" "p" (fun _ _ => ⟨false, none, []⟩) 5
    [] none [] (fun _ => 0) (fun _ => "") "not found" 1
    (fun i hi => absurd hi (by omega)) (by omega) (by omega)

/-- Splitting membership in an extended trace whose extension is
hook-free. -/
theorem mem_append_hookFree {x : ExecCall} {tr l : List ExecCall}
    (hl : ∀ y ∈ l, ¬ isHookCall y) (hx : x ∈ tr ++ l) :
    x ∈ tr ∨ ¬ isHookCall x :=
  (List.mem_append.1 hx).imp id (hl x)

/-- Every trace entry produced by the stage loop of
`PipelineExecutor.run` is an event emission or a stage run — never a hook
call. -/
theorem execLoop_trace_hookFree (cfg : PipelineConfig) (runner : Runner) :
    ∀ fuel current context st tr x,
      x ∈ (execLoop cfg runner fuel current context st tr).2 →
      x ∈ tr ∨ ¬ isHookCall x := by
  intro fuel
  induction fuel with
  | zero => intro current context st tr x hx; exact Or.inl hx
  | succ n ih =>
    intro current context st tr x hx
    simp only [execLoop] at hx
    cases hl : List.lookup current cfg.stages with
    | none => rw [hl] at hx; exact Or.inl hx
    | some sc =>
      rw [hl] at hx
      simp only [List.append_assoc] at hx
      split at hx
      · -- end signal: trace extended by three events and a stage run
        refine mem_append_hookFree ?_ hx
        intro y hy
        cases y with
        | beforeHook s => simp at hy
        | afterHook s => simp at hy
        | emitEvent e => simp [isHookCall]
        | stageRun s => simp [isHookCall]
      · split at hx
        · split at hx
          · -- transition target falsy: no-transition terminal branch
            split at hx <;>
            · refine mem_append_hookFree ?_ hx
              intro y hy
              cases y with
              | beforeHook s => simp at hy
              | afterHook s => simp at hy
              | emitEvent e => simp [isHookCall]
              | stageRun s => simp [isHookCall]
          · -- recursive step
            rcases ih _ _ _ _ _ hx with hmem | hshape
            · refine mem_append_hookFree ?_ hmem
              intro y hy
              cases y with
              | beforeHook s => simp at hy
              | afterHook s => simp at hy
              | emitEvent e => simp [isHookCall]
              | stageRun s => simp [isHookCall]
            · exact Or.inr hshape
        · -- no transition: completed or failed leaf
          split at hx <;>
          · refine mem_append_hookFree ?_ hx
            intro y hy
            cases y with
            | beforeHook s => simp at hy
            | afterHook s => simp at hy
            | emitEvent e => simp [isHookCall]
            | stageRun s => simp [isHookCall]

/-- C1 (code_bug evaluation): the executor translated from `executor.py`
never invokes a `before_stage` or `after_stage` hook during `run` — its
`__init__` accepts no such callback slots (only `config, runner, on_event,
context`) and its loop calls none, although `hooks.py`, `cli.py` and the
repository's own tests pass `before_stage=` / `after_stage=` to the
constructor. -/
theorem run_invokes_no_hooks (cfg : PipelineConfig) (runner : Runner)
    (context : Option (List (String × JValue))) (fuel : Nat) (nm : String) :
    ExecCall.beforeHook nm ∉ ((mkExecutor cfg runner context).run fuel).2 ∧
    ExecCall.afterHook nm ∉ ((mkExecutor cfg runner context).run fuel).2 := by
  have key : ∀ x ∈ ((mkExecutor cfg runner context).run fuel).2, ¬ isHookCall x := by
    intro x hx
    unfold PipelineExecutor.run at hx
    split at hx
    · exact absurd hx (List.not_mem_nil x)
    · rcases execLoop_trace_hookFree _ _ _ _ _ _ _ _ hx with hmem | hshape
      · exact absurd hmem (List.not_mem_nil x)
      · exact hshape
  exact ⟨fun h => key _ h trivial, fun h => key _ h trivial⟩

/-- Witness for `run_invokes_no_hooks` at a concrete pipeline run. -/
theorem run_invokes_no_hooks_w :
    ExecCall.beforeHook "build" ∉ ((mkExecutor pipeDone runnerOk none).run 2).2 ∧
    ExecCall.afterHook "build" ∉ ((mkExecutor pipeDone runnerOk none).run 2).2 :=
  run_invokes_no_hooks pipeDone runnerOk none 2 "build"

/-- The executor loop only appends to `stage_history` and only increases
`total_iterations`. -/
theorem execLoop_state_extends (cfg : PipelineConfig) (runner : Runner) :
    ∀ fuel current context st tr,
      st.stage_history <+:
        ((execLoop cfg runner fuel current context st tr).1).stage_history ∧
      st.total_iterations ≤
        ((execLoop cfg runner fuel current context st tr).1).total_iterations := by
  intro fuel
  induction fuel with
  | zero =>
    intro current context st tr
    exact ⟨List.prefix_refl _, Nat.le_refl _⟩
  | succ n ih =>
    intro current context st tr
    simp only [execLoop]
    cases hl : List.lookup current cfg.stages with
    | none =>
      exact ⟨List.prefix_refl _, Nat.le_refl _⟩
    | some sc =>
      dsimp only
      split
      · exact ⟨⟨_, rfl⟩, Nat.le_add_right _ _⟩
      · split
        · split
          · split <;> exact ⟨⟨_, rfl⟩, Nat.le_add_right _ _⟩
          · constructor
            · apply List.IsPrefix.trans
              on_goal 2 => exact (ih _ _ _ _).1
              exact List.prefix_append _ _
            · apply Nat.le_trans
              on_goal 2 => exact (ih _ _ _ _).2
              exact Nat.le_add_right _ _
        · split
          · exact ⟨⟨_, rfl⟩, Nat.le_add_right _ _⟩
          · exact ⟨⟨_, rfl⟩, Nat.le_add_right _ _⟩

/-- C5 (amended): the `PipelineState` is created at executor construction
(`__init__`) with empty history, empty artifacts and zero iterations;
`run()` does not reset it — it only appends to `stage_history` and
increases `total_iterations` — so a second sequential `run()` on the same
instance continues from the previous run's state rather than starting
fresh. -/
theorem pipeline_state_lifecycle (cfg : PipelineConfig) (runner : Runner)
    (context : Option (List (String × JValue))) (ex : PipelineExecutor)
    (fuel : Nat) :
    (mkExecutor cfg runner context).state = ({} : PipelineState) ∧
    ex.state.stage_history <+: ((ex.run fuel).1).stage_history ∧
    ex.state.total_iterations ≤ ((ex.run fuel).1).total_iterations := by
  refine ⟨rfl, ?_⟩
  unfold PipelineExecutor.run
  split
  · exact ⟨List.prefix_refl _, Nat.le_refl _⟩
  · dsimp only
    exact execLoop_state_extends ex.config ex.runner fuel ex.config.start_stage
      ex.initial_context { ex.state with status := PipelineStatus.running } []

/-- C5, counterexample to the claim as stated: after one completed run of
a one-stage pipeline, a second sequential `run()` on the same executor
continues from the mutated state — its returned history has two entries
and two total iterations, not a fresh single-entry history. -/
theorem pipeline_state_fresh_per_run_cex :
    (((mkExecutor pipeDone runnerOk none).run 2).1).stage_history =
      [("A", some "DONE")] ∧
    (((mkExecutor pipeDone runnerOk none).run 2).1).total_iterations = 1 ∧
    ((({ mkExecutor pipeDone runnerOk none with
        state := ((mkExecutor pipeDone runnerOk none).run 2).1 } :
          PipelineExecutor).run 2).1).stage_history =
      [("A", some "DONE"), ("A", some "DONE")] ∧
    ((({ mkExecutor pipeDone runnerOk none with
        state := ((mkExecutor pipeDone runnerOk none).run 2).1 } :
          PipelineExecutor).run 2).1).total_iterations = 2 :=
  ⟨rfl, rfl, rfl, rfl⟩

/-- Witness for `pipeline_state_lifecycle` at a concrete pipeline run. -/
theorem pipeline_state_lifecycle_w :
    (mkExecutor pipeDone runnerOk none).state = ({} : PipelineState) ∧
    (mkExecutor pipeDone runnerOk none).state.stage_history <+:
      (((mkExecutor pipeDone runnerOk none).run 2).1).stage_history ∧
    (mkExecutor pipeDone runnerOk none).state.total_iterations ≤
      (((mkExecutor pipeDone runnerOk none).run 2).1).total_iterations :=
  pipeline_state_lifecycle pipeDone runnerOk none (mkExecutor pipeDone runnerOk none) 2

/-- C9 (amended): when the stage executed by the loop yields a non-null,
NON-EMPTY signal that is in the pipeline's `end_signals`, the executor
records the stage in the history, sets `status = COMPLETED` and stops —
regardless of remaining fuel and of any transition the stage declares for
that same signal: the history gains exactly this one entry, so no
transition target is entered. -/
theorem end_signal_precedes_transitions
    (cfg : PipelineConfig) (runner : Runner) (fuel : Nat) (current : String)
    (context : List (String × JValue)) (st : PipelineState) (tr : List ExecCall)
    (sc : StageConfig) (s : String)
    (h1 : List.lookup current cfg.stages = some sc)
    (h2 : ((Stage.run sc runner context).1).signal = some s)
    (h3 : s ≠ "")
    (h4 : cfg.end_signals.contains s = true) :
    ((execLoop cfg runner (fuel + 1) current context st tr).1).status =
      PipelineStatus.completed ∧
    ((execLoop cfg runner (fuel + 1) current context st tr).1).stage_history =
      st.stage_history ++ [(current, some s)] := by
  have hs4 : s ∈ cfg.end_signals := by simpa using h4
  have hend : isEndSignal cfg (some s) = true := by
    simp [isEndSignal, h3, hs4]
  constructor <;> simp [execLoop, h1, h2, hend]

/-- Witness for `end_signal_precedes_transitions`: the spec's
end-signal-precedence scenario — `end_signals = ["DONE"]`, stage `A` also
maps `DONE` to `B`; after `A` yields `DONE` the status is COMPLETED with
`A` alone in the history, `B` never entered. -/
theorem end_signal_precedes_transitions_w :
    ((execLoop pipeDone runnerOk 1 "A" [] {} []).1).status =
      PipelineStatus.completed ∧
    ((execLoop pipeDone runnerOk 1 "A" [] {} []).1).stage_history =
      [("A", some "DONE")] :=
  end_signal_precedes_transitions pipeDone runnerOk 0 "A" [] {} []
    stageDone "DONE" rfl rfl (by decide) rfl

/-- C9, counterexample to the claim as stated: a non-null empty-string
signal that IS a member of `end_signals` does not complete the pipeline —
Python's truthiness test `if result.signal and ...` skips it, and the run
fails instead. -/
theorem end_signal_empty_string_cex :
    ((Stage.run stageEmptySig runnerOk []).1).signal = some "" ∧
    pipeEmptyEnd.end_signals.contains "" = true ∧
    (((mkExecutor pipeEmptyEnd runnerOk none).run 2).1).status =
      PipelineStatus.failed ∧
    PipelineStatus.failed ≠ PipelineStatus.completed :=
  ⟨rfl, rfl, rfl, by decide⟩

/-- A `firstBadTransition` result exhibits an invalid transition entry. -/
theorem firstBadTransition_eq_some (stage_names : List String)
    (stages : List StageSchema) (st : StageSchema) (signal target : String)
    (h : firstBadTransition stage_names stages = some (st, signal, target)) :
    st ∈ stages ∧ (signal, target) ∈ st.transitions ∧
      stage_names.contains target = false := by
  unfold firstBadTransition at h
  rw [List.findSome?_eq_some_iff] at h
  obtain ⟨l₁, st', l₂, hsplit, hfa, -⟩ := h
  rw [Option.map_eq_some'] at hfa
  obtain ⟨kv, hfind, hkv⟩ := hfa
  have hst : st' = st := congrArg Prod.fst hkv
  have hsig : kv.1 = signal := congrArg (fun p => p.2.1) hkv
  have htgt : kv.2 = target := congrArg (fun p => p.2.2) hkv
  subst hst; subst hsig; subst htgt
  refine ⟨by rw [hsplit]; exact List.mem_append_right _ (List.mem_cons_self _ _),
    List.mem_of_find?_eq_some hfind, ?_⟩
  have hp := List.find?_some hfind
  simpa using hp

/-- `firstBadTransition` finds nothing exactly when every transition
target is declared. -/
theorem firstBadTransition_eq_none (stage_names : List String)
    (stages : List StageSchema) :
    firstBadTransition stage_names stages = none ↔
      ∀ st ∈ stages, ∀ kv ∈ st.transitions,
        stage_names.contains kv.2 = true := by
  unfold firstBadTransition
  rw [List.findSome?_eq_none_iff]
  constructor
  · intro h st hst kv hkv
    have := h st hst
    rw [Option.map_eq_none'] at this
    rw [List.find?_eq_none] at this
    have := this kv hkv
    simpa using this
  · intro h st hst
    rw [Option.map_eq_none', List.find?_eq_none]
    intro kv hkv
    have hc := h st hst kv hkv
    simpa using hc

/-- C4 (amended): configurations that go through the schema loader are
validated at construction — `PipelineSchema.validate_stages` succeeds
exactly when the start stage and every transition target name a declared
stage, and otherwise raises a `ValueError` before any execution.  (Direct
`PipelineConfig` construction performs no validation; see
`construction_validation_cex`.) -/
theorem loader_validates_stage_references (s : PipelineSchema) :
    (s.validate_stages = Except.ok s ↔
      ((s.stages.map StageSchema.name).contains s.start_stage = true ∧
        ∀ st ∈ s.stages, ∀ kv ∈ st.transitions,
          (s.stages.map StageSchema.name).contains kv.2 = true)) ∧
    (s.validate_stages = Except.ok s ∨
      ∃ m, s.validate_stages = Except.error m) := by
  unfold PipelineSchema.validate_stages
  by_cases hs : (s.stages.map StageSchema.name).contains s.start_stage
  · rw [if_neg (not_not_intro hs)]
    cases hbt : firstBadTransition (s.stages.map StageSchema.name) s.stages with
    | none =>
      refine ⟨⟨fun _ => ⟨hs, (firstBadTransition_eq_none _ _).1 hbt⟩, fun _ => rfl⟩,
        Or.inl rfl⟩
    | some bad =>
      obtain ⟨st, signal, target⟩ := bad
      obtain ⟨hmem, hkv, htgt⟩ := firstBadTransition_eq_some _ _ _ _ _ hbt
      refine ⟨⟨fun h => absurd h (by simp), fun h => ?_⟩, Or.inr ⟨_, rfl⟩⟩
      have := h.2 st hmem (signal, target) hkv
      rw [htgt] at this
      exact absurd this (by simp)
  · rw [if_pos hs]
    refine ⟨⟨fun h => absurd h (by simp), fun h => ?_⟩, Or.inr ⟨_, rfl⟩⟩
    exact absurd h.1 hs

/-- Witness for `loader_validates_stage_references`: a schema whose start
stage and transition targets are declared validates successfully, and one
whose transition target is undeclared is rejected. -/
theorem loader_validates_stage_references_w :
    PipelineSchema.validate_stages
      { name := "p", start_stage := "a", stages := [⟨"a", "t", [("X", "a")]⟩] } =
      Except.ok
        { name := "p", start_stage := "a", stages := [⟨"a", "t", [("X", "a")]⟩] } ∧
    PipelineSchema.validate_stages
      { name := "p", start_stage := "a", stages := [⟨"a", "t", [("X", "b")]⟩] } ≠
      Except.ok
        { name := "p", start_stage := "a", stages := [⟨"a", "t", [("X", "b")]⟩] } := by
  constructor
  · exact (loader_validates_stage_references
      { name := "p", start_stage := "a", stages := [⟨"a", "t", [("X", "a")]⟩] }).1.mpr
      (by constructor
          · decide
          · intro st hst kv hkv
            simp at hst
            subst hst
            simp at hkv
            subst hkv
            decide)
  · intro h
    have := ((loader_validates_stage_references
      { name := "p", start_stage := "a", stages := [⟨"a", "t", [("X", "b")]⟩] }).1.mp h).2
    have hb := this ⟨"a", "t", [("X", "b")]⟩ (by simp) ("X", "b") (by simp)
    exact absurd hb (by decide)

/-- C4, counterexample to the claim as stated: a `PipelineConfig` whose
`start_stage` names no declared stage is constructed without any error (a
plain dataclass), and execution DOES reach `run`, which detects the
undeclared stage only at run time and returns status FAILED. -/
theorem construction_validation_cex :
    (pipeBadStart.stages.map Prod.fst).contains pipeBadStart.start_stage =
      false ∧
    (((mkExecutor pipeBadStart runnerOk none).run 3).1).status =
      PipelineStatus.failed :=
  ⟨rfl, rfl⟩

/-- Reconstructing a string from its characters. -/
theorem string_mk_data (p : String) : String.mk p.data = p := rfl

/-- `renderTpl` distributes over cons. -/
theorem renderTpl_cons (t : TplToken) (ts : List TplToken) :
    renderTpl (t :: ts) = t.render ++ renderTpl ts := by
  simp [renderTpl]

/-- Replacement on the empty string is the empty string, for any fuel. -/
theorem pyReplaceF_nil (pat rep : List Char) (fuel : Nat) :
    pyReplaceF pat rep fuel [] = [] := by
  cases fuel <;> rfl

/-- When the pattern does not occur, `str.replace` is the identity. -/
theorem pyReplaceF_no_occurrence (pat rep : List Char) :
    ∀ fuel s, findSubIdxF pat fuel s = none → pyReplaceF pat rep fuel s = s := by
  intro fuel
  induction fuel with
  | zero => intro s _; cases s <;> rfl
  | succ n ih =>
    intro s h
    cases s with
    | nil => rfl
    | cons c rest =>
      cases hp : pat.isPrefixOf (c :: rest) with
      | true => simp [findSubIdxF, hp] at h
      | false =>
        simp only [findSubIdxF, hp, Bool.false_eq_true, if_false,
          Option.map_eq_none'] at h
        simp only [pyReplaceF, hp, Bool.false_eq_true, if_false]
        rw [ih rest h]

/-- Unfolding the replace scan at a matching position. -/
theorem pyReplaceF_cons_pos (pat rep : List Char) (m : Nat) (c : Char)
    (rest : List Char) (h : pat.isPrefixOf (c :: rest) = true) :
    pyReplaceF pat rep (m + 1) (c :: rest) =
      rep ++ pyReplaceF pat rep m ((c :: rest).drop pat.length) := by
  simp [pyReplaceF, h]

/-- Unfolding the replace scan at a non-matching position. -/
theorem pyReplaceF_cons_neg (pat rep : List Char) (m : Nat) (c : Char)
    (rest : List Char) (h : pat.isPrefixOf (c :: rest) = false) :
    pyReplaceF pat rep (m + 1) (c :: rest) = c :: pyReplaceF pat rep m rest := by
  simp [pyReplaceF, h]

/-- Walking a placeholder scan across a brace-free text run: no match can
start inside it, because every match starts with an opening brace. -/
theorem pyReplaceF_skip_braceFree (ps rep : List Char) :
    ∀ (s : List Char) (fuel : Nat) (t : List Char), '\x7b' ∉ s →
      s.length ≤ fuel →
      pyReplaceF ('\x7b' :: ps) rep fuel (s ++ t) =
        s ++ pyReplaceF ('\x7b' :: ps) rep (fuel - s.length) t := by
  intro s
  induction s with
  | nil => intro fuel t _ _; simp
  | cons c s ih =>
    intro fuel t hnb hlen
    cases fuel with
    | zero => simp at hlen
    | succ m =>
      have hne : ('\x7b' : Char) ≠ c := fun h => hnb (h ▸ List.mem_cons_self c s)
      have hbeq : (('\x7b' : Char) == c) = false := beq_eq_false_iff_ne.mpr hne
      have hnopre : ('\x7b' :: ps).isPrefixOf (c :: (s ++ t)) = false := by
        rw [List.isPrefixOf_cons₂, hbeq]
        exact Bool.false_and _
      rw [List.cons_append, pyReplaceF_cons_neg _ _ _ _ _ hnopre,
        ih m t (fun h => hnb (List.mem_cons_of_mem c h)) (by simpa using hlen)]
      have hfuel : m + 1 - (c :: s).length = m - s.length := by
        simp [Nat.succ_sub_succ]
      rw [hfuel]
      exact (List.cons_append c s _).symm

/-- A placeholder at the head of the scan is consumed whole and replaced;
the replacement text is not rescanned. -/
theorem pyReplaceF_match (pat rep : List Char) (hpat : pat ≠ []) :
    ∀ (fuel : Nat) (t : List Char), 1 ≤ fuel →
      pyReplaceF pat rep fuel (pat ++ t) =
        rep ++ pyReplaceF pat rep (fuel - 1) t := by
  intro fuel t h1
  cases fuel with
  | zero => omega
  | succ m =>
    cases pat with
    | nil => exact absurd rfl hpat
    | cons p ps =>
      have hpre : (p :: ps).isPrefixOf (p :: (ps ++ t)) = true := by
        rw [List.isPrefixOf_iff_prefix]
        exact List.cons_prefix_cons.mpr ⟨rfl, List.prefix_append ps t⟩
      rw [List.cons_append, pyReplaceF_cons_pos _ _ _ _ _ hpre]
      have hdrop : (p :: (ps ++ t)).drop (p :: ps).length = t := by
        rw [← List.cons_append]
        exact List.drop_left (p :: ps) t
      rw [hdrop]
      rfl

/-- A placeholder pattern for key `k` cannot start where a placeholder for
a different brace-free name `n` stands: the closing brace of `n` blocks
it. -/
theorem placeholder_not_prefix_aux :
    ∀ (k n t : List Char), '\x7d' ∉ k → '\x7d' ∉ n → k ≠ n →
      ¬ ((k ++ ['\x7d']) <+: (n ++ '\x7d' :: t)) := by
  intro k
  induction k with
  | nil =>
    intro n t _ hn hne hpre
    cases n with
    | nil => exact hne rfl
    | cons b ns =>
      rw [List.nil_append, List.cons_append, List.cons_prefix_cons] at hpre
      have hbmem : ('\x7d' : Char) ∈ b :: ns := by
        rw [hpre.1]; exact List.mem_cons_self _ _
      exact hn hbmem
  | cons a ks ih =>
    intro n t hk hn hne hpre
    cases n with
    | nil =>
      rw [List.cons_append, List.nil_append, List.cons_prefix_cons] at hpre
      have hamem : ('\x7d' : Char) ∈ a :: ks := by
        rw [← hpre.1]; exact List.mem_cons_self _ _
      exact hk hamem
    | cons b ns =>
      rw [List.cons_append, List.cons_append, List.cons_prefix_cons] at hpre
      obtain ⟨hab, hpre'⟩ := hpre
      subst hab
      refine ih ns t (fun h => hk (List.mem_cons_of_mem a h))
        (fun h => hn (List.mem_cons_of_mem a h)) (fun h => hne (by rw [h])) hpre'

/-- The `isPrefixOf` form of `placeholder_not_prefix_aux`, with the shared
opening brace peeled off. -/
theorem placeholder_not_prefix (k n t : List Char)
    (hk : '\x7d' ∉ k) (hn : '\x7d' ∉ n) (hne : k ≠ n) :
    (('\x7b' :: (k ++ ['\x7d'])).isPrefixOf
      ('\x7b' :: (n ++ '\x7d' :: t))) = false := by
  rw [Bool.eq_false_iff]
  intro hpre
  rw [List.isPrefixOf_iff_prefix, List.cons_prefix_cons] at hpre
  exact placeholder_not_prefix_aux k n t hk hn hne hpre.2

/-- List-level form of placeholder concatenation. -/
theorem placeholder_append (n r : List Char) :
    ('\x7b' :: (n ++ ['\x7d'])) ++ r = '\x7b' :: (n ++ '\x7d' :: r) := by
  simp

/-- One `str.replace` pass over a rendered well-formed template resolves
exactly the holes named by the key: literals and differently-named holes
are copied, matching holes become the (unscanned) literal value. -/
theorem pyReplaceF_render (k v : String) (hk : braceFree k.data) :
    ∀ (ts : List TplToken) (fuel : Nat), (∀ t ∈ ts, t.wf) →
      (renderTpl ts).length ≤ fuel →
      pyReplaceF (placeholderOf k) v.data fuel (renderTpl ts) =
        renderTpl (ts.map (TplToken.resolveOne k v)) := by
  intro ts
  induction ts with
  | nil =>
    intro fuel _ _
    exact pyReplaceF_nil _ _ _
  | cons t ts ih =>
    intro fuel hwf hlen
    have hwft : t.wf := hwf t (List.mem_cons_self _ _)
    have hwfts : ∀ u ∈ ts, u.wf := fun u hu => hwf u (List.mem_cons_of_mem _ hu)
    rw [renderTpl_cons] at hlen ⊢
    cases t with
    | lit s =>
      have hsb : '\x7b' ∉ s.data := hwft.1
      have hlen' : s.data.length + (renderTpl ts).length ≤ fuel := by
        simpa using hlen
      show pyReplaceF ('\x7b' :: (k.data ++ ['\x7d'])) v.data fuel
          (s.data ++ renderTpl ts) = _
      rw [pyReplaceF_skip_braceFree (k.data ++ ['\x7d']) v.data s.data fuel
        (renderTpl ts) hsb (by omega)]
      rw [show placeholderOf k = '\x7b' :: (k.data ++ ['\x7d']) from rfl] at ih
      rw [ih (fuel - s.data.length) hwfts (by omega)]
      rw [List.map_cons, renderTpl_cons]
      rfl
    | hole n =>
      have hnb : braceFree n.data := hwft
      have hlen' : n.data.length + 2 + (renderTpl ts).length ≤ fuel := by
        have h0 : (TplToken.hole n).render.length = n.data.length + 2 := by
          simp [TplToken.render, placeholderOf]
        have h1 : (TplToken.hole n).render.length + (renderTpl ts).length ≤
            fuel := by simpa using hlen
        omega
      by_cases hkn : n = k
      · subst hkn
        have h1 : 1 ≤ fuel := by omega
        show pyReplaceF (placeholderOf n) v.data fuel
            (placeholderOf n ++ renderTpl ts) = _
        rw [pyReplaceF_match (placeholderOf n) v.data (by simp [placeholderOf])
          fuel (renderTpl ts) h1]
        rw [ih (fuel - 1) hwfts (by omega)]
        rw [List.map_cons, renderTpl_cons]
        simp [TplToken.resolveOne, TplToken.render]
      · cases fuel with
        | zero => omega
        | succ m =>
          show pyReplaceF ('\x7b' :: (k.data ++ ['\x7d'])) v.data (m + 1)
              (('\x7b' :: (n.data ++ ['\x7d'])) ++ renderTpl ts) = _
          rw [placeholder_append]
          have hfalse := placeholder_not_prefix k.data n.data (renderTpl ts)
            hk.2 hnb.2 (fun h => hkn (by rw [← string_mk_data n,
              ← string_mk_data k, h]))
          rw [pyReplaceF_cons_neg _ _ _ _ _ hfalse]
          rw [show n.data ++ '\x7d' :: renderTpl ts =
            (n.data ++ ['\x7d']) ++ renderTpl ts by simp]
          have hnb' : '\x7b' ∉ n.data ++ ['\x7d'] := by
            intro h
            rcases List.mem_append.1 h with h | h
            · exact hnb.1 h
            · simp at h
          have hplen : (n.data ++ ['\x7d']).length = n.data.length + 1 := by
            simp
          have hm : (n.data ++ ['\x7d']).length ≤ m := by omega
          rw [pyReplaceF_skip_braceFree (k.data ++ ['\x7d']) v.data
            (n.data ++ ['\x7d']) m (renderTpl ts) hnb' hm]
          rw [show placeholderOf k = '\x7b' :: (k.data ++ ['\x7d']) from rfl] at ih
          have hm2 : (renderTpl ts).length ≤ m - (n.data ++ ['\x7d']).length := by
            omega
          rw [ih (m - (n.data ++ ['\x7d']).length) hwfts hm2]
          rw [List.map_cons, renderTpl_cons]
          simp only [TplToken.resolveOne, if_neg hkn, TplToken.render]
          simp [placeholderOf]

/-- The conditional replace of one `build_prompt` fold step equals the
unconditional replace: when the placeholder does not occur the replace is
the identity. -/
theorem build_prompt_step (p k v : String) :
    (if (findSubIdx (placeholderOf k) p.data).isSome then
      String.mk (pyReplace p.data (placeholderOf k) v.data) else p) =
    String.mk (pyReplace p.data (placeholderOf k) v.data) := by
  by_cases h : (findSubIdx (placeholderOf k) p.data).isSome
  · rw [if_pos h]
  · rw [if_neg h]
    have hnone : findSubIdxF (placeholderOf k) p.data.length p.data = none :=
      Option.not_isSome_iff_eq_none.mp h
    unfold pyReplace
    rw [pyReplaceF_no_occurrence _ _ _ _ hnone, string_mk_data]

/-- Resolving one key and then the rest of the context is resolving the
whole context. -/
theorem resolveOne_then_resolve (k v : String)
    (context : List (String × String)) (t : TplToken) :
    TplToken.resolve context (TplToken.resolveOne k v t) =
      TplToken.resolve ((k, v) :: context) t := by
  cases t with
  | lit s => rfl
  | hole n =>
    by_cases h : n = k
    · subst h
      simp [TplToken.resolveOne, TplToken.resolve]
    · simp [TplToken.resolveOne, h, TplToken.resolve, List.lookup,
        beq_eq_false_iff_ne.mpr h]

/-- Resolution with a brace-free value preserves token well-formedness. -/
theorem resolveOne_wf (k v : String) (hv : braceFree v.data) (t : TplToken)
    (ht : t.wf) : (TplToken.resolveOne k v t).wf := by
  cases t with
  | lit s => exact ht
  | hole n =>
    by_cases h : n = k
    · simpa [TplToken.resolveOne, h] using hv
    · simpa [TplToken.resolveOne, h] using ht

/-- C10 (amended): for templates that decompose into brace-free literal
runs and `\x7bname\x7d` placeholders, and contexts whose keys and values
contain no braces, `Stage.build_prompt` replaces every placeholder whose
key is present in the context with that key's (string) value, leaves every
placeholder whose key is absent untouched, and — being a total function —
never raises.  (Without these restrictions substitution is sequential per
context key, so a value containing a later key's placeholder is itself
rewritten; see `build_prompt_sequential_cex`.) -/
theorem build_prompt_resolves_placeholders
    (ts : List TplToken) (context : List (String × String))
    (hts : ∀ t ∈ ts, t.wf)
    (hctx : ∀ kv ∈ context, braceFree (Prod.fst kv).data ∧
      braceFree (Prod.snd kv).data) :
    Stage.build_prompt (String.mk (renderTpl ts)) context =
      String.mk (renderTpl (ts.map (TplToken.resolve context))) := by
  revert hctx
  induction context generalizing ts hts with
  | nil =>
    intro _
    show String.mk (renderTpl ts) = _
    congr 1
    have hpt : ∀ t ∈ ts, TplToken.resolve [] t = t := by
      intro t _; cases t <;> rfl
    rw [List.map_congr_left hpt, List.map_id']
  | cons kv ctx ih =>
    intro hctx
    obtain ⟨k, v⟩ := kv
    have hk : braceFree k.data := (hctx (k, v) (List.mem_cons_self _ _)).1
    have hv : braceFree v.data := (hctx (k, v) (List.mem_cons_self _ _)).2
    have hstep : Stage.build_prompt (String.mk (renderTpl ts)) ((k, v) :: ctx) =
        Stage.build_prompt
          (String.mk (renderTpl (ts.map (TplToken.resolveOne k v)))) ctx := by
      simp only [Stage.build_prompt, List.foldl_cons]
      congr 1
      rw [build_prompt_step]
      congr 1
      exact pyReplaceF_render k v hk ts (renderTpl ts).length hts (Nat.le_refl _)
    rw [hstep]
    have hts' : ∀ t ∈ ts.map (TplToken.resolveOne k v), t.wf := by
      intro t ht
      obtain ⟨u, hu, rfl⟩ := List.mem_map.1 ht
      exact resolveOne_wf k v hv u (hts u hu)
    rw [ih (ts.map (TplToken.resolveOne k v)) hts'
      (fun kv2 h2 => hctx kv2 (List.mem_cons_of_mem _ h2))]
    congr 2
    rw [List.map_map]
    exact List.map_congr_left fun t _ => resolveOne_then_resolve k v ctx t

/-- Witness for `build_prompt_resolves_placeholders`: a template with one
bound and one unbound placeholder — the bound one is substituted, the
unbound one survives. -/
theorem build_prompt_resolves_placeholders_w :
    Stage.build_prompt
      (String.mk (renderTpl [TplToken.lit "Hello ", TplToken.hole "name",
        TplToken.lit "! ", TplToken.hole "missing"]))
      [("name", "World")] =
    String.mk (renderTpl ([TplToken.lit "Hello ", TplToken.hole "name",
        TplToken.lit "! ", TplToken.hole "missing"].map
      (TplToken.resolve [("name", "World")]))) := by
  refine build_prompt_resolves_placeholders _ _ ?_ ?_
  · intro t ht
    simp only [List.mem_cons, List.not_mem_nil, or_false] at ht
    rcases ht with rfl | rfl | rfl | rfl <;> exact ⟨by decide, by decide⟩
  · intro kv hkv
    simp only [List.mem_cons, List.not_mem_nil, or_false] at hkv
    subst hkv
    exact ⟨⟨by decide, by decide⟩, ⟨by decide, by decide⟩⟩

/-- C10, counterexample to the claim as stated: with context
`a ↦ "\x7bb\x7d"`, `b ↦ "X"`, the template `\x7ba\x7d` evaluates to `X` —
the value substituted for `a` was itself rewritten by the later key `b` —
whereas the claim's one-pass substitution (formalised by `specSubst`)
yields `\x7bb\x7d`. -/
theorem build_prompt_sequential_cex :
    Stage.build_prompt "\x7ba\x7d" [("a", "\x7bb\x7d"), ("b", "X")] = "X" ∧
    specSubst "\x7ba\x7d" [("a", "\x7bb\x7d"), ("b", "X")] = "\x7bb\x7d" ∧
    ("X" : String) ≠ "\x7bb\x7d" :=
  ⟨rfl, rfl, by decide⟩

end BuildLoop
